import Mathlib

/-!
Verification development for the Reddit thread retriever.

The definitions below are a shallow embedding of the Python source files
`error_handler.py` (error classification) and `data_retriever.py`
(retry wrapper, comment-tree construction, media classification).
Python exceptions are modelled with `Except`; dictionaries with optional
keys are modelled with `Option`-valued structure fields; attribute
accesses that can raise are modelled with explicit `Option`/throwing
constructors.  Each definition keeps the name of the Python function or
value it embeds where Lean allows it.
-/

/-! ## String helpers

Python string operations used by the source: `p in s` (substring test),
`s.lower()`, and `s.endswith(p)`.  They are implemented over the
character list of the string so that all proofs reduce by computation. -/

/-- Tests whether the first character list is a leading segment of the
second, mirroring how Python compares the start of a string. -/
def charsStart : List Char → List Char → Bool
  | [], _ => true
  | _ :: _, [] => false
  | a :: as, b :: bs => a == b && charsStart as bs

/-- Tests whether the first character list occurs contiguously inside the
second; this is Python's `p in s` on strings. -/
def charsSub (p : List Char) : List Char → Bool
  | [] => charsStart p []
  | c :: rest => charsStart p (c :: rest) || charsSub p rest

/-- Python `p in s` for strings `s` and `p`. -/
def strHas (s p : String) : Bool := charsSub p.data s.data

/-- Python `s.endswith(p)`. -/
def strEnds (s p : String) : Bool := charsStart p.data.reverse s.data.reverse

/-- Python `s.lower()` (the source only compares ASCII text). -/
def strLower (s : String) : String := ⟨s.data.map Char.toLower⟩

/-! ## Error model

`ErrVal` models a Python exception value as seen by `error_handler.py`
and by the retry wrapper in `data_retriever.py`:

* `isPrawcoreLike` — whether the exception is an instance of the
  prawcore/praw types checked by `is_retryable_error`
  (`RequestException`, `ResponseException`, `PrawcoreException`,
  `RedditAPIException`);
* `isPraw` — whether it is an instance of
  `praw.exceptions.PRAWException`, the type the retry wrapper checks;
* `responseStatus` — `error.response.status_code` when the exception has
  a non-`None` `response` attribute, `none` otherwise;
* `msg` — `str(error)`. -/
structure ErrVal where
  isPrawcoreLike : Bool
  isPraw : Bool
  responseStatus : Option Nat
  msg : String
deriving DecidableEq

/-- Phrase list from `error_handler.is_retryable_error` (lines 70-79),
matched case-insensitively as substrings of `str(error)`. -/
def retryable_phrases : List String :=
  ["rate limit", "ratelimit",
   "timeout", "time-out", "timed out",
   "connection failed", "connection reset", "connection refused", "connection error",
   "temporary", "transient",
   "500", "502", "503", "504",
   "server error", "internal server error",
   "service unavailable",
   "please try again later"]

/-- Text fallback of `is_retryable_error`: some retryable phrase occurs in
the lowercased error string. -/
def phraseMatch (msg : String) : Bool :=
  retryable_phrases.any (fun p => strHas (strLower msg) p)

/-- Embedding of `error_handler.is_retryable_error` (lines 33-80).  For
prawcore/praw-type errors carrying a response, status 429 or one of
500/502/503/504 answers `true` immediately; any other case falls through
to substring matching on the lowercased message. -/
def is_retryable_error (e : ErrVal) : Bool :=
  if e.isPrawcoreLike then
    match e.responseStatus with
    | some st =>
        if st = 429 then true
        else if st ∈ [500, 502, 503, 504] then true
        else phraseMatch e.msg
    | none => phraseMatch e.msg
  else phraseMatch e.msg

/-- Vocabulary exactly as the specification lists it: "rate limit,
timeout, connection reset/refused/failed, temporary, transient,
server error, service unavailable, try again later". -/
def spec_vocab : List String :=
  ["rate limit", "timeout",
   "connection reset", "connection refused", "connection failed",
   "temporary", "transient",
   "server error", "service unavailable",
   "try again later"]

/-- Classifier written from the specification's words, for comparison
with `is_retryable_error`: true when the error carries an HTTP status in
{429, 500, 502, 503, 504} or its description contains a phrase of
`spec_vocab` (case-insensitive substring match). -/
def spec_is_retryable (e : ErrVal) : Bool :=
  (match e.responseStatus with
   | some st => st ∈ [429, 500, 502, 503, 504]
   | none => false)
  || spec_vocab.any (fun p => strHas (strLower e.msg) p)

/-! ## Retry wrapper

Embedding of `data_retriever.retry_with_backoff` (lines 18-63).  The
wrapped operation is modelled as a function from the attempt index
(Python's `retries` counter) to a result; sleeping, jitter and logging
affect only pacing and are not modelled.  The `while True` loop counts
`retries` up to `max_retries`; it is embedded structurally over the
number of remaining retries (`max_retries - retries`), so Python's exit
test `retries >= max_retries` becomes `remaining = 0`. -/

/-- Outcome of one wrapped call: a success value, one of the translated
domain errors raised at lines 45-49 (each carrying its cause), or the
original exception re-raised unchanged by the bare `raise` at line 50. -/
inductive RetryResult (α : Type) where
  | ok (a : α)
  | authError (cause : ErrVal)
  | postError (cause : ErrVal)
  | commentError (cause : ErrVal)
  | reraised (e : ErrVal)
deriving DecidableEq

/-- Translation performed when the wrapper gives up (lines 42-50): PRAW
exceptions mentioning 401/403 become authentication errors, otherwise
the wrapped function's name selects a post- or comment-retrieval error;
everything else is re-raised unchanged. -/
def translate_error (fname : String) (e : ErrVal) : RetryResult α :=
  if e.isPraw then
    if strHas e.msg "401" || strHas e.msg "403" then .authError e
    else if fname = "fetch_post_data" then .postError e
    else if fname = "fetch_comments_data" then .commentError e
    else .reraised e
  else .reraised e

/-- Retry loop of `retry_with_backoff` at the state where `retries`
attempts have already failed and `remaining = max_retries - retries`
retries are still allowed.  Returns the outcome together with the number
of attempts (calls of the operation) made from this state on. -/
def retry_rem (op : Nat → Except ErrVal α) (fname : String) :
    Nat → Nat → RetryResult α × Nat
  | retries, 0 =>
      match op retries with
      | .ok a => (.ok a, 1)
      | .error e => (translate_error fname e, 1)
  | retries, remaining + 1 =>
      match op retries with
      | .ok a => (.ok a, 1)
      | .error e =>
          if is_retryable_error e then
            let r := retry_rem op fname (retries + 1) remaining
            (r.1, r.2 + 1)
          else (translate_error fname e, 1)

/-- Embedding of a call through `retry_with_backoff(max_retries)` applied
to a function named `fname`: the loop starts with `retries = 0`. -/
def retry_with_backoff (op : Nat → Except ErrVal α) (max_retries : Nat)
    (fname : String) : RetryResult α × Nat :=
  retry_rem op fname 0 max_retries

/-- Whether an outcome is one of the translated domain errors of the
taxonomy (authentication, post retrieval, comment retrieval). -/
def isTranslatedDomainError : RetryResult α → Bool
  | .authError _ => true
  | .postError _ => true
  | .commentError _ => true
  | _ => false

/-- Cause carried by a failing outcome (the `from e` clause). -/
def resultCause : RetryResult α → Option ErrVal
  | .ok _ => none
  | .authError e => some e
  | .postError e => some e
  | .commentError e => some e
  | .reraised e => some e

/-! ## Comment tree

Embedding of `data_retriever._process_comment` (lines 145-201) and the
comment loop of `data_retriever.fetch_comments_data` (lines 203-297).

A raw item delivered by PRAW is modelled by `RawNode`:

* `comment c rs` — a `praw.models.Comment` whose attributes read as the
  fields of `c` and whose `replies` collection (after `replace_more`)
  yields `rs` in order;
* `more id` — a `praw.models.MoreComments` placeholder;
* `bad` — a comment object whose processing raises (for example an
  attribute access failing, or `replace_more` failing immediately);
  inside a reply list it models the exception caught at line 197, at
  top level it models an exception escaping to the caller.

`hasBody` models `hasattr(comment, 'body')`; `author` models the
`author` attribute (`none` for `None`). -/
structure CommentFields where
  id : String
  hasBody : Bool
  author : Option String
  body : String
  created_utc : Int
  score : Int
  is_submitter : Bool
  stickied : Bool
  parent_id : String
  permalink : String
deriving DecidableEq

/-- Raw comment-forest item handed over by the remote source. -/
inductive RawNode where
  | comment (c : CommentFields) (replies : List RawNode)
  | more (id : String)
  | bad

/-- Structured dictionary built by `_process_comment` (lines 168-180). -/
structure CommentData where
  id : String
  author : String
  body : String
  created_utc : Int
  score : Int
  is_submitter : Bool
  stickied : Bool
  parent_id : String
  permalink : String
  depth : Int
  replies : List CommentData

/-- Value stored under the `author` key:
`comment.author.name if comment.author else '[deleted]'` (line 170). -/
def authorName (c : CommentFields) : String := c.author.getD "[deleted]"

/-- Dictionary literal of lines 168-180 with the given depth and replies. -/
def mkData (c : CommentFields) (depth : Int) (reps : List CommentData) :
    CommentData :=
  { id := c.id, author := authorName c, body := c.body,
    created_utc := c.created_utc, score := c.score,
    is_submitter := c.is_submitter, stickied := c.stickied,
    parent_id := c.parent_id,
    permalink := "https://www.reddit.com" ++ c.permalink,
    depth := depth, replies := reps }

/-- Test at line 184: `max_depth is not None and depth >= max_depth`. -/
def depthReached (depth : Int) : Option Int → Bool
  | some m => depth ≥ m
  | none => false

mutual

/-- Embedding of `_process_comment(comment, depth, max_depth)`.
`Except.error` models an exception escaping the call (only possible for
a `bad` node: for real comments the reply loop's `try/except` at lines
190-198 catches everything).  `Except.ok none` models the `return None`
for skipped nodes; in Python the `hasattr(comment, 'body')` test at line
160 also skips `MoreComments` placeholders (they carry no `body`), which
the explicit `isinstance` test at line 163 would otherwise catch. -/
def process_comment : RawNode → Int → Option Int → Except Unit (Option CommentData)
  | .bad, _, _ => .error ()
  | .more _, _, _ => .ok none
  | .comment c rs, depth, max_depth =>
      if !c.hasBody || c.author.isNone then .ok none
      else if depthReached depth max_depth then .ok (some (mkData c depth []))
      else .ok (some (mkData c depth (process_replies rs (depth + 1) max_depth)))

/-- Reply loop of lines 190-198: each direct reply is processed at
`depth + 1`, skipped results are filtered out, and an exception raised
while processing a reply aborts the loop keeping the replies collected
so far (the surrounding `try/except`). -/
def process_replies : List RawNode → Int → Option Int → List CommentData
  | [], _, _ => []
  | n :: rest, d, md =>
      match process_comment n d md with
      | .error _ => []
      | .ok none => process_replies rest d md
      | .ok (some cd) => cd :: process_replies rest d md

end

/-- Valid PRAW sort orders, line 231. -/
def validPrawSorts : List String :=
  ["best", "top", "new", "controversial", "old", "q&a"]

/-- Sort-order normalisation of lines 227-234: lowercase, map `score` to
PRAW's `top`, and fall back to `best` for unrecognized values. -/
def actualPrawSort (sort_order : String) : String :=
  let a := strLower sort_order
  let a := if a = "score" then "top" else a
  if validPrawSorts.contains a then a else "best"

/-- Stable sort of the collected dictionaries by score descending:
`comments_data_list.sort(key=lambda c: c.get('score', 0), reverse=True)`
(line 280).  Python's sort is stable; with `reverse=True` elements of
equal score keep their relative order, which is what a stable merge sort
with the reflexive comparison `b.score ≤ a.score` produces. -/
def sortByScoreDesc (l : List CommentData) : List CommentData :=
  l.mergeSort (fun a b => b.score ≤ a.score)

/-- Top-level comment loop of lines 243-267 at the state where `count`
top-level comments have already been collected.  Each iteration first
checks the break condition of line 248, then dispatches on the item's
type: a `Comment` instance is fed to `_process_comment` with
`depth = 0` (a `bad` one, whose processing raises — the reduct of
`process_comment` on `bad` — makes the exception escape the loop as
`Except.error`), a `MoreComments` placeholder is skipped (line 262). -/
def topLoop : List RawNode → Nat → Nat → Option Int → Except Unit (List CommentData)
  | [], _, _, _ => .ok []
  | RawNode.more _ :: rest, count, num, md =>
      if count ≥ num then .ok []
      else topLoop rest count num md
  | RawNode.bad :: _, count, num, _ =>
      if count ≥ num then .ok []
      else .error ()
  | RawNode.comment c rs :: rest, count, num, md =>
      if count ≥ num then .ok []
      else
        match process_comment (RawNode.comment c rs) 0 md with
        | .error e => .error e
        | .ok none => topLoop rest count num md
        | .ok (some cd) =>
            match topLoop rest (count + 1) num md with
            | .error e => .error e
            | .ok l => .ok (cd :: l)

/-- Embedding of `fetch_comments_data(submission, sort_order,
num_comments, comment_depth)` (lines 203-297), taking the sequence of
raw top-level items the source yields (already under the requested PRAW
sort and fetch limit — `comment_sort`/`comment_limit` only shape that
sequence) as input.  After the loop, the block of lines 275-282 runs
when the caller asked for `score`: it re-sorts only when the PRAW sort
used was not `top`, then truncates to `num_comments`. -/
def fetch_comments_data (comments : List RawNode) (sort_order : String)
    (num_comments : Nat) (comment_depth : Option Int) :
    Except Unit (List CommentData) :=
  match topLoop comments 0 num_comments comment_depth with
  | .error e => .error e
  | .ok l =>
      if strLower sort_order = "score" then
        .ok ((if actualPrawSort sort_order ≠ "top" then sortByScoreDesc l
              else l).take num_comments)
      else .ok l

/-- Checks that a score list is non-increasing. -/
def scoresNonInc : List Int → Bool
  | [] => true
  | [_] => true
  | a :: b :: rest => b ≤ a && scoresNonInc (b :: rest)

/-- Result of `_process_comment` on a top-level item, as an `Option`:
`some` exactly for items that are appended and counted by the loop. -/
def topValid (md : Option Int) (n : RawNode) : Option CommentData :=
  match process_comment n 0 md with
  | .ok (some cd) => some cd
  | _ => none

/-- Whether a raw item is the `bad` (exception-raising) marker. -/
def isBad : RawNode → Bool
  | .bad => true
  | _ => false

/-! ## Media classifier

Embedding of `data_retriever.extract_media_info` (lines 300-425).  A
submission's attributes are modelled with `Option` for attributes that
may be missing or `None`/falsy:

* `is_gallery : Option Bool` — `none` when the attribute is missing
  (reading it then raises `AttributeError`, which matters at line 406);
* `media_metadata : Option (List (String × MMItem))` — the ordered
  items of the metadata dict; `none` covers a missing, `None` or empty
  value (all make the guard at line 317 false);
* `media` — `none` when `media` is missing, `None` or lacks the
  `reddit_video` key;
* `preview` — the `preview['images']` list, `none` when `preview` is
  missing, falsy or has no `images` key;
* `secure_media` — `none` when missing, `None` or without `oembed`.

A `media_metadata` item that is not a dict (so that `item.get` raises,
caught by the outer `try/except`) is the `malformed` constructor. -/

/-- Fields read from a gallery item's `s` dict (lines 324-336). -/
structure SField where
  u : Option String
  x : Option Int
  y : Option Int
  mp4 : Option String
  gif : Option String
deriving DecidableEq

/-- One value of the `media_metadata` dict. -/
inductive MMItem where
  | fields (e : Option String) (s : Option SField) (m : Option String)
  | malformed
deriving DecidableEq

/-- Fields of `submission.media['reddit_video']` (lines 345-356). -/
structure RedditVideoInfo where
  fallback_url : Option String
  hls_url : Option String
  dash_url : Option String
  duration : Option Int
  width : Option Int
  height : Option Int
  is_gif : Option Bool
  transcoding_status : Option String
deriving DecidableEq

/-- The `source` dict of a preview image (lines 364-382). -/
structure SourceImage where
  url : Option String
  width : Option Int
  height : Option Int
deriving DecidableEq

/-- One entry of `submission.preview['images']`. -/
structure PreviewImage where
  source : SourceImage
deriving DecidableEq

/-- The oEmbed payload under `secure_media['oembed']` (lines 390-399);
`otype` stands for the dict's `type` key. -/
structure Oembed where
  otype : Option String
  provider_name : Option String
  url : Option String
  html : Option String
  thumbnail_url : Option String
  title : Option String
  author_name : Option String
deriving DecidableEq

/-- The `secure_media` dict, reduced to its `oembed` key. -/
structure SecureMedia where
  oembed : Option Oembed
deriving DecidableEq

/-- The `media` dict, reduced to its `reddit_video` key. -/
structure MediaField where
  reddit_video : Option RedditVideoInfo
deriving DecidableEq

/-- Attributes of a PRAW submission read by `extract_media_info`. -/
structure Submission where
  is_gallery : Option Bool
  media_metadata : Option (List (String × MMItem))
  is_video : Bool
  media : Option MediaField
  preview : Option (List PreviewImage)
  domain : String
  url : String
  is_self : Bool
  secure_media : Option SecureMedia
deriving DecidableEq

/-- Structured media dictionaries produced by `extract_media_info`, one
constructor per `type` tag, fields in source order. -/
inductive MediaItem where
  | image_gallery_item (id : String) (url : Option String)
      (width height : Option Int) (mimetype : Option String)
  | animated_gallery_item (id : String) (url : Option String)
      (width height : Option Int) (mimetype : Option String)
  | reddit_video (url hls_url dash_url : Option String)
      (duration_seconds width height : Option Int)
      (is_gif : Option Bool) (transcoding_status : Option String)
  | image (url : String) (width height : Option Int)
  | image_link (url : String) (width height : Option Int)
      (preview_url : Option String)
  | youtube_video_embed (url html_embed thumbnail_url title author_name
      provider_name : Option String)
  | external_image_link (url : String)
deriving DecidableEq

/-- Guard of line 317: flagged as gallery with truthy `media_metadata`. -/
def gallery_cond (s : Submission) : Bool :=
  s.is_gallery.getD false &&
    (match s.media_metadata with
     | some mm => !mm.isEmpty
     | none => false)

/-- Guard of line 343: flagged video with a `reddit_video` entry. -/
def reddit_video_cond (s : Submission) : Bool :=
  s.is_video &&
    (match s.media with
     | some mf => mf.reddit_video.isSome
     | none => false)

/-- Guard of line 361: a truthy `preview` with a nonempty image list. -/
def preview_cond (s : Submission) : Bool :=
  match s.preview with
  | some imgs => !imgs.isEmpty
  | none => false

/-- Extensions of line 374/407. -/
def image_extensions : List String := [".jpg", ".jpeg", ".png", ".gif"]

/-- Test `any(submission.url.lower().endswith(ext) for ext in ...)`. -/
def hasImageExt (url : String) : Bool :=
  image_extensions.any (fun ext => strEnds (strLower url) ext)

/-- Gallery loop of lines 319-337: appends one item per sub-item onto
the accumulated list, in dict order; a malformed sub-item raises, which
the embedding signals as `Except.error` carrying the list accumulated so
far (the mutation already performed on `structured_media`). -/
def gallery_loop : List (String × MMItem) → List MediaItem →
    Except (List MediaItem) (List MediaItem)
  | [], acc => .ok acc
  | (_, .malformed) :: _, acc => .error acc
  | (media_id, .fields e s m) :: rest, acc =>
      let acc :=
        if e = some "Image" && s.isSome then
          match s with
          | some sf =>
              acc ++ [.image_gallery_item media_id sf.u sf.x sf.y m]
          | none => acc
        else if e = some "Video" && s.isSome then
          match s with
          | some sf =>
              acc ++ [.animated_gallery_item media_id
                        (sf.mp4.or sf.gif) sf.x sf.y m]
          | none => acc
        else acc
      gallery_loop rest acc

/-- Rule 5 of lines 405-416 (fallback external image link).  The read of
`submission.is_gallery` at line 406 is unguarded: when the attribute is
missing it raises, which the outer handler turns into returning the
accumulated list.  Short-circuit order matches the Python condition. -/
def fallback_rule (s : Submission) (acc : List MediaItem) :
    Except (List MediaItem) (List MediaItem) :=
  if acc.isEmpty && !s.is_self && !s.is_video then
    match s.is_gallery with
    | none => .error acc
    | some g =>
        if !g then
          if hasImageExt s.url &&
              !(["i.redd.it", "v.redd.it"].contains s.domain) then
            .ok (acc ++ [.external_image_link s.url])
          else .ok acc
        else .ok acc
  else .ok acc

/-- Rule 4 of lines 388-403 (oEmbed): a video oEmbed from YouTube is
appended to whatever is pending and returned immediately; otherwise
evaluation continues with rule 5. -/
def oembed_rule (s : Submission) (acc : List MediaItem) :
    Except (List MediaItem) (List MediaItem) :=
  match s.secure_media with
  | some sm =>
      match sm.oembed with
      | some oe =>
          if oe.otype = some "video" && oe.provider_name = some "YouTube" then
            .ok (acc ++ [.youtube_video_embed oe.url oe.html
                          oe.thumbnail_url oe.title oe.author_name
                          oe.provider_name])
          else fallback_rule s acc
      | none => fallback_rule s acc
  | none => fallback_rule s acc

/-- Body of the `try` block of `extract_media_info` (lines 315-419):
`Except.ok` is a `return`, `Except.error` is an exception caught by the
outer handler; both carry the `structured_media` list at that point.
Rules 1-3 are an `if/elif/elif` chain; rules 4 and 5 are separate `if`
statements reached whenever no earlier rule returned. -/
def extract_core (s : Submission) : Except (List MediaItem) (List MediaItem) :=
  if gallery_cond s then
    match gallery_loop (s.media_metadata.getD []) [] with
    | .error acc => .error acc
    | .ok acc => if !acc.isEmpty then .ok acc else oembed_rule s acc
  else if reddit_video_cond s then
    match s.media with
    | some mf =>
        match mf.reddit_video with
        | some rv =>
            .ok [.reddit_video rv.fallback_url rv.hls_url rv.dash_url
                  rv.duration rv.width rv.height rv.is_gif
                  rv.transcoding_status]
        | none => .error []
    | none => .error []
  else if preview_cond s then
    match s.preview.getD [] with
    | img :: _ =>
        if ["i.redd.it", "i.imgur.com"].contains s.domain then
          .ok [.image s.url img.source.width img.source.height]
        else if !s.is_self && s.url ≠ "" && !s.is_video then
          if hasImageExt s.url && s.domain ≠ "v.redd.it" then
            oembed_rule s
              [.image_link s.url img.source.width img.source.height
                img.source.url]
          else oembed_rule s []
        else oembed_rule s []
    | [] => .error []
  else oembed_rule s []

/-- Embedding of `extract_media_info`: the function returns
`structured_media` both on normal completion and after the `except`
handler of lines 421-423, so both `Except` branches yield their list. -/
def extract_media_info (s : Submission) : List MediaItem :=
  match extract_core s with
  | .ok l => l
  | .error l => l

/-- Whether a media item is tagged `youtube_video_embed`. -/
def isYoutubeItem : MediaItem → Bool
  | .youtube_video_embed .. => true
  | _ => false

/-! ## Tree flattening

Helpers used to state invariants over every node of a tree: `cdNodes`
lists a produced dictionary together with all its descendants, and
`rawNodes` lists a raw item together with every raw item reachable
through reply lists. -/

mutual

/-- Nodes of a produced comment tree: the node and all descendants. -/
def cdNodes : CommentData → List CommentData
  | cd@⟨_, _, _, _, _, _, _, _, _, _, reps⟩ => cd :: cdNodesF reps

/-- Nodes of a list of produced comment trees. -/
def cdNodesF : List CommentData → List CommentData
  | [] => []
  | cd :: rest => cdNodes cd ++ cdNodesF rest

end

mutual

/-- Raw items of a raw tree: the item and everything below it. -/
def rawNodes : RawNode → List RawNode
  | n@(.comment _ rs) => n :: rawNodesF rs
  | n => [n]

/-- Raw items of a raw forest. -/
def rawNodesF : List RawNode → List RawNode
  | [] => []
  | n :: rest => rawNodes n ++ rawNodesF rest

end

mutual

/-- Depth invariant on a produced tree: every reply records its parent's
depth plus one, recursively. -/
def depthOk : CommentData → Bool
  | ⟨_, _, _, _, _, _, _, _, _, d, reps⟩ => depthOkF d reps

/-- Depth invariant for the reply list of a node at depth `d`. -/
def depthOkF : Int → List CommentData → Bool
  | _, [] => true
  | d, cd :: rest => cd.depth == d + 1 && depthOk cd && depthOkF d rest

end

/-! ## Concrete fixtures

Concrete raw inputs used to evaluate the embedded functions at specific
points (counterexamples and witnesses). -/

/-- Comment fields with every attribute present, parameterised by id and
score. -/
def plainFields (i : String) (sc : Int) : CommentFields :=
  { id := i, hasBody := true, author := some "u", body := "b",
    created_utc := 0, score := sc, is_submitter := false,
    stickied := false, parent_id := "p", permalink := "/x" }

/-- Valid raw comment with the given id, score and replies. -/
def plainComment (i : String) (sc : Int) (rs : List RawNode) : RawNode :=
  .comment (plainFields i sc) rs

/-- Two valid top-level comments whose scores arrive in increasing
order, as a remote source is free to deliver them. -/
def c1_input : List RawNode :=
  [plainComment "a" 1 [], plainComment "b" 5 []]

/-- Five valid top-level comments plus one load-more placeholder. -/
def c7_input : List RawNode :=
  [plainComment "a" 1 [], RawNode.more "m", plainComment "b" 5 [],
   plainComment "c" 2 [], plainComment "d" 9 [], plainComment "e" 4 []]

/-- Top-level comment with one reply, used for witnesses. -/
def c9_input : List RawNode :=
  [plainComment "t" 7 [plainComment "r" 3 []]]

/-- Gallery submission whose `media_metadata` holds one well-formed
image item followed by a value that is not a dict, so the second loop
iteration raises inside the `try` block. -/
def badGallerySub : Submission :=
  { is_gallery := some true,
    media_metadata := some
      [("aaa", .fields (some "Image")
          (some ⟨some "https://i/full.jpg", some 100, some 60, none, none⟩)
          (some "image/jpg")),
       ("bbb", .malformed)],
    is_video := false, media := none, preview := none,
    domain := "reddit.com", url := "https://www.reddit.com/gallery/x",
    is_self := false, secure_media := none }

/-- External link post that qualifies both for the `image_link` rule
(non-self, non-video, preview present, URL ending in `.jpg`) and for the
YouTube oEmbed rule. -/
def bothSub : Submission :=
  { is_gallery := some false, media_metadata := none, is_video := false,
    media := none,
    preview := some [⟨⟨some "https://preview/p.jpg", some 640, some 480⟩⟩],
    domain := "example.com", url := "https://example.com/pic.jpg",
    is_self := false,
    secure_media := some ⟨some ⟨some "video", some "YouTube",
      some "https://youtu.be/x", some "<iframe>", some "https://t.jpg",
      some "T", some "A"⟩⟩ }

/-- Retryable error that is not a PRAW exception (a plain exception
whose text mentions a timeout). -/
def nonPrawErr : ErrVal := ⟨false, false, none, "timeout"⟩

/-- Retryable PRAW exception (server error text, no 401/403). -/
def prawErr : ErrVal := ⟨true, true, none, "502 server error"⟩

/-- Non-retryable, non-PRAW error. -/
def fatalErr : ErrVal := ⟨false, false, none, "boom"⟩

/-- Operation failing with the same error on every attempt. -/
def alwaysFail (e : ErrVal) : Nat → Except ErrVal Unit := fun _ => .error e

/-! ## Retry wrapper: lemmas -/

/-- When the final error is not a PRAW exception, the give-up path of
the wrapper is the bare `raise` of line 50. -/
theorem translate_error_nonpraw (fname : String) (e : ErrVal)
    (h : e.isPraw = false) : (translate_error fname e : RetryResult α) = .reraised e := by
  simp [translate_error, h]

/-- Every give-up outcome carries the final error as its cause. -/
theorem resultCause_translate (fname : String) (e : ErrVal) :
    resultCause (translate_error fname e : RetryResult α) = some e := by
  unfold translate_error
  repeat first
  | rfl
  | split

/-- A run in which every allowed attempt fails with a retryable error
and the final attempt also fails performs one attempt per allowed try
plus the final one, then translates the final error. -/
theorem retry_exhaust (op : Nat → Except ErrVal α) (fname : String) :
    ∀ (remaining retries : Nat) (es : Nat → ErrVal),
      (∀ k, k < remaining → op (retries + k) = .error (es (retries + k)) ∧
        is_retryable_error (es (retries + k)) = true) →
      op (retries + remaining) = .error (es (retries + remaining)) →
      retry_rem op fname retries remaining =
        (translate_error fname (es (retries + remaining)), remaining + 1) := by
  intro remaining
  induction remaining with
  | zero =>
      intro retries es _ hlast
      simp only [Nat.add_zero] at hlast
      simp [retry_rem, hlast]
  | succ rem ih =>
      intro retries es hall hlast
      have h0 := hall 0 (Nat.succ_pos rem)
      simp only [Nat.add_zero] at h0
      have hrec := ih (retries + 1) es
        (fun k hk => by
          have := hall (k + 1) (Nat.succ_lt_succ hk)
          simpa [Nat.add_assoc, Nat.add_comm 1 k] using this)
        (by simpa [Nat.add_assoc, Nat.add_comm 1 rem] using hlast)
      simp only [retry_rem, h0.1, h0.2, if_true]
      rw [hrec]
      simp [Nat.add_assoc, Nat.add_comm 1 rem]

/-- C3 (amended): with `max_retries = 3`, an operation failing on every
attempt with retryable errors is attempted exactly 4 times, after which
the wrapper raises the give-up translation of the last error — a domain
error carrying it as cause when the last error is a PRAW exception
matching the translation rules of lines 42-49, and the last error
itself, re-raised unchanged, otherwise.  In both cases the surfaced
value carries the last raised error as its cause. -/
theorem retry_exhaustion_surfaces_last (op : Nat → Except ErrVal α)
    (fname : String) (es : Nat → ErrVal)
    (hall : ∀ k, k < 3 → op k = .error (es k) ∧
      is_retryable_error (es k) = true)
    (hlast : op 3 = .error (es 3)) :
    retry_with_backoff op 3 fname = (translate_error fname (es 3), 4) ∧
      resultCause ((retry_with_backoff op 3 fname).1) = some (es 3) := by
  have h := retry_exhaust op fname 3 0 es
    (fun k hk => by simpa using hall k hk)
    (by simpa using hlast)
  rw [retry_with_backoff, h]
  exact ⟨rfl, resultCause_translate fname (es 3)⟩

/-- C3 witness: a PRAW server error failing all four attempts of a
`fetch_post_data` call surfaces a post-retrieval error caused by it. -/
theorem retry_exhaustion_surfaces_last_witness :
    retry_with_backoff (alwaysFail prawErr) 3 "fetch_post_data" =
        (translate_error "fetch_post_data" prawErr, 4) ∧
      resultCause ((retry_with_backoff (alwaysFail prawErr) 3
        "fetch_post_data").1) = some prawErr :=
  retry_exhaustion_surfaces_last (alwaysFail prawErr) "fetch_post_data"
    (fun _ => prawErr) (fun _ _ => ⟨rfl, rfl⟩) rfl

/-- C3 counterexample: a non-PRAW operation failing every attempt with a
retryable error is attempted 4 times but the surfaced value is the
original exception re-raised, not a translated domain error. -/
theorem retry_exhaustion_not_always_translated :
    is_retryable_error nonPrawErr = true ∧
      retry_with_backoff (alwaysFail nonPrawErr) 3 "fetch_post_data" =
        (.reraised nonPrawErr, 4) ∧
      isTranslatedDomainError
        ((retry_with_backoff (alwaysFail nonPrawErr) 3
          "fetch_post_data").1) = false :=
  ⟨rfl, rfl, rfl⟩

/-- C10: when the wrapper gives up — immediately on a non-retryable
error, or after exhausting `max_retries` retries — and the final
exception is not a PRAW exception, it re-raises exactly the original
exception value, with no translation and no wrapping. -/
theorem retry_nonpraw_reraises :
    (∀ (α : Type) (op : Nat → Except ErrVal α) (mr : Nat) (fname : String)
        (e : ErrVal), op 0 = .error e → is_retryable_error e = false →
        e.isPraw = false →
        (retry_with_backoff op mr fname).1 = .reraised e) ∧
    (∀ (α : Type) (op : Nat → Except ErrVal α) (mr : Nat) (fname : String)
        (es : Nat → ErrVal),
        (∀ k, k < mr → op k = .error (es k) ∧
          is_retryable_error (es k) = true) →
        op mr = .error (es mr) → (es mr).isPraw = false →
        retry_with_backoff op mr fname = (.reraised (es mr), mr + 1)) := by
  constructor
  · intro α op mr fname e h0 hnr hnp
    cases mr with
    | zero => simp [retry_with_backoff, retry_rem, h0,
        translate_error_nonpraw fname e hnp]
    | succ m => simp [retry_with_backoff, retry_rem, h0, hnr,
        translate_error_nonpraw fname e hnp]
  · intro α op mr fname es hall hlast hnp
    have h := retry_exhaust op fname mr 0 es
      (fun k hk => by simpa using hall k hk)
      (by simpa using hlast)
    simp only [Nat.zero_add] at h
    rw [retry_with_backoff, h, translate_error_nonpraw fname _ hnp]

/-- C10 witness: a non-retryable, non-PRAW error is re-raised unchanged
on the first give-up, and a retryable non-PRAW error is re-raised
unchanged after the retries are exhausted. -/
theorem retry_nonpraw_reraises_witness :
    (retry_with_backoff (alwaysFail fatalErr) 3 "fetch_post_data").1 =
        .reraised fatalErr ∧
      retry_with_backoff (alwaysFail nonPrawErr) 2 "other" =
        (.reraised nonPrawErr, 3) :=
  ⟨retry_nonpraw_reraises.1 Unit (alwaysFail fatalErr) 3 "fetch_post_data"
      fatalErr rfl rfl rfl,
    retry_nonpraw_reraises.2 Unit (alwaysFail nonPrawErr) 2 "other"
      (fun _ => nonPrawErr) (fun _ _ => ⟨rfl, rfl⟩) rfl rfl⟩

/-! ## Error classifier: theorems -/

/-- C4 counterexample: the message "connection error" is classified
retryable by the code (its phrase list contains `connection error`) but
matches neither a structured status nor any phrase of the vocabulary the
specification lists. -/
theorem is_retryable_differs_from_spec_vocab :
    is_retryable_error ⟨false, false, none, "connection error"⟩ = true ∧
      spec_is_retryable ⟨false, false, none, "connection error"⟩ = false :=
  ⟨rfl, rfl⟩

/-- C4 (amended): `is_retryable_error` answers true exactly when the
error is one of the checked prawcore/praw types carrying a response
whose status lies in {429, 500, 502, 503, 504}, or when its lowercased
description contains one of the code's transient phrases (which extend
the specification's vocabulary with `ratelimit`, `time-out`,
`timed out`, `connection error`, the digit strings `500`/`502`/`503`/
`504`, `internal server error`, and require `please try again later`
rather than `try again later`).  A present but non-matching status falls
back to text matching rather than forcing false, and the function is
total, so it never raises. -/
theorem is_retryable_error_iff (e : ErrVal) :
    is_retryable_error e = true ↔
      ((e.isPrawcoreLike = true ∧ ∃ st, e.responseStatus = some st ∧
          st ∈ [429, 500, 502, 503, 504]) ∨
        ∃ p ∈ retryable_phrases, strHas (strLower e.msg) p = true) := by
  obtain ⟨pc, pw, st, msg⟩ := e
  simp only [is_retryable_error, phraseMatch]
  cases pc with
  | false => simp [List.any_eq_true]
  | true =>
      cases st with
      | none => simp [List.any_eq_true]
      | some v =>
          by_cases h429 : v = 429
          · subst h429; simp
          · by_cases h5xx : v ∈ [500, 502, 503, 504]
            · simp only [if_neg h429, if_pos h5xx]
              exact iff_of_true rfl
                (Or.inl ⟨trivial, v, rfl, List.mem_cons_of_mem 429 h5xx⟩)
            · simp only [if_neg h429, if_neg h5xx]
              simp only [List.mem_cons, List.mem_singleton] at h5xx
              push_neg at h5xx
              simp [List.any_eq_true, List.mem_cons, h429, h5xx]

/-! ## Comment tree: theorems -/

/-- C1 counterexample: a source delivering two valid comments with
scores 1 then 5 under `sort_order = "score"` yields the list in source
order — scores `[1, 5]`, which is not non-increasing — because the
re-sort of line 280 is guarded by `actual_praw_sort != 'top'`, which is
never true when the caller asked for `score`. -/
theorem score_sort_counterexample :
    (fetch_comments_data c1_input "score" 10 (some 0)).map
        (fun l => l.map CommentData.score) = .ok [1, 5] ∧
      (fetch_comments_data c1_input "score" 10 (some 0)).map
        (fun l => scoresNonInc (l.map CommentData.score)) = .ok false :=
  ⟨rfl, rfl⟩

/-- C1 (amended): with `sort_order = "score"` the builder returns the
processed top-level comments exactly in the order the source delivered
them under PRAW's `top` sort, truncated to at most `num_comments`; the
stable re-sort branch is dead code because `score` is always mapped to
the PRAW sort `top`, so a non-increasing score order holds only when the
remote ordering already provides it. -/
theorem score_sort_is_source_order (comments : List RawNode) (num : Nat)
    (md : Option Int) :
    fetch_comments_data comments "score" num md =
      (topLoop comments 0 num md).map (fun l => l.take num) := by
  unfold fetch_comments_data
  cases h : topLoop comments 0 num md with
  | error e => rfl
  | ok l =>
      simp [show actualPrawSort "score" = "top" from rfl,
        show strLower "score" = "score" from rfl, Except.map]

/-- Processing a real comment never throws: the `try/except` of lines
190-198 catches everything raised while expanding its replies. -/
theorem process_comment_isOk (c : CommentFields) (rs : List RawNode)
    (d : Int) (md : Option Int) :
    (process_comment (RawNode.comment c rs) d md).isOk = true := by
  simp only [process_comment]
  repeat first
  | rfl
  | split

/-- Reply lists whose members all sit one level below `d` and satisfy
the depth invariant satisfy `depthOkF d`. -/
theorem depthOkF_of_mem (d : Int) (reps : List CommentData)
    (h : ∀ cd ∈ reps, cd.depth = d + 1 ∧ depthOk cd = true) :
    depthOkF d reps = true := by
  induction reps with
  | nil => rfl
  | cons cd rest ih =>
      have h1 := h cd (List.mem_cons_self cd rest)
      have h2 := ih (fun x hx => h x (List.mem_cons_of_mem cd hx))
      simp [depthOkF, h1.1, h1.2, h2]

mutual

/-- Depth bookkeeping of `_process_comment`: a produced node records the
depth it was processed at, all its descendants satisfy the depth
invariant, and a node processed at or beyond `max_depth` has an empty
reply list. -/
theorem pc_depth : ∀ (n : RawNode) (d : Int) (md : Option Int)
    (cd : CommentData), process_comment n d md = .ok (some cd) →
    cd.depth = d ∧ depthOk cd = true ∧
      (∀ m, md = some m → d ≥ m → cd.replies = [])
  | .bad, d, md, cd => by intro h; simp [process_comment] at h
  | .more i, d, md, cd => by intro h; simp [process_comment] at h
  | .comment c rs, d, md, cd => by
      intro h
      simp only [process_comment] at h
      by_cases hval : (!c.hasBody || c.author.isNone) = true
      · rw [if_pos hval] at h; simp at h
      · rw [if_neg hval] at h
        by_cases hdep : depthReached d md = true
        · rw [if_pos hdep] at h
          have hcd : mkData c d [] = cd := by simpa using h
          subst hcd
          refine ⟨rfl, rfl, fun m _ _ => rfl⟩
        · rw [if_neg hdep] at h
          have hcd : mkData c d (process_replies rs (d + 1) md) = cd := by
            simpa using h
          subst hcd
          refine ⟨rfl, ?_, ?_⟩
          · show depthOkF d (process_replies rs (d + 1) md) = true
            exact depthOkF_of_mem d _ (pr_depth rs (d + 1) md)
          · intro m hm hd
            rw [hm] at hdep
            simp [depthReached] at hdep
            omega

/-- Every dictionary produced by the reply loop at depth `d` records
depth `d` and satisfies the depth invariant. -/
theorem pr_depth : ∀ (ns : List RawNode) (d : Int) (md : Option Int),
    ∀ cd ∈ process_replies ns d md, cd.depth = d ∧ depthOk cd = true
  | [], d, md => by simp [process_replies]
  | n :: rest, d, md => by
      intro cd hcd
      simp only [process_replies] at hcd
      cases hp : process_comment n d md with
      | error e => rw [hp] at hcd; simp at hcd
      | ok r =>
          rw [hp] at hcd
          cases r with
          | none => exact pr_depth rest d md cd hcd
          | some cd0 =>
              rcases List.mem_cons.mp hcd with h1 | h2
              · subst h1
                have := pc_depth n d md cd hp
                exact ⟨this.1, this.2.1⟩
              · exact pr_depth rest d md cd h2

end

/-- Every dictionary in a list produced by the top-level loop comes from
`_process_comment` at depth 0 on some source item. -/
theorem topLoop_mem : ∀ (comments : List RawNode) (count num : Nat)
    (md : Option Int) (l : List CommentData),
    topLoop comments count num md = .ok l →
    ∀ cd ∈ l, ∃ n ∈ comments, process_comment n 0 md = .ok (some cd) := by
  intro comments
  induction comments with
  | nil =>
      intro count num md l h cd hcd
      simp only [topLoop] at h
      cases h
      simp at hcd
  | cons n rest ih =>
      intro count num md l h cd hcd
      have lift : ∀ x ∈ rest, x ∈ n :: rest :=
        fun x hx => List.mem_cons_of_mem n hx
      cases n with
      | more i =>
          simp only [topLoop] at h
          by_cases hc : count ≥ num
          · rw [if_pos hc] at h; cases h; simp at hcd
          · rw [if_neg hc] at h
            obtain ⟨n', hn', hp'⟩ := ih count num md l h cd hcd
            exact ⟨n', lift n' hn', hp'⟩
      | bad =>
          simp only [topLoop] at h
          by_cases hc : count ≥ num
          · rw [if_pos hc] at h; cases h; simp at hcd
          · rw [if_neg hc] at h; exact Except.noConfusion h
      | comment c rs =>
          simp only [topLoop] at h
          by_cases hc : count ≥ num
          · rw [if_pos hc] at h; cases h; simp at hcd
          · rw [if_neg hc] at h
            cases hp : process_comment (RawNode.comment c rs) 0 md with
            | error e => rw [hp] at h; cases h
            | ok r =>
                rw [hp] at h
                cases r with
                | none =>
                    obtain ⟨n', hn', hp'⟩ := ih count num md l h cd hcd
                    exact ⟨n', lift n' hn', hp'⟩
                | some cd0 =>
                    cases ht : topLoop rest (count + 1) num md with
                    | error e => rw [ht] at h; cases h
                    | ok l' =>
                        rw [ht] at h
                        cases h
                        rcases List.mem_cons.mp hcd with h1 | h2
                        · subst h1
                          exact ⟨RawNode.comment c rs,
                            List.mem_cons_self _ _, hp⟩
                        · obtain ⟨n', hn', hp'⟩ :=
                            ih (count + 1) num md l' ht cd h2
                          exact ⟨n', lift n' hn', hp'⟩

/-- With the requested lowercased sort equal to `score`, the PRAW sort
actually used is always `top`. -/
theorem actualPrawSort_score (s : String) (hs : strLower s = "score") :
    actualPrawSort s = "top" := by
  simp [actualPrawSort, hs, validPrawSorts]

/-- Equation for `fetch_comments_data`, exposing the post-processing of
lines 275-282 as a map over the loop's result. -/
theorem fetch_comments_eq (comments : List RawNode) (s : String)
    (num : Nat) (md : Option Int) :
    fetch_comments_data comments s num md =
      (topLoop comments 0 num md).map (fun l =>
        if strLower s = "score" then
          (if actualPrawSort s ≠ "top" then sortByScoreDesc l
           else l).take num
        else l) := by
  unfold fetch_comments_data
  cases h : topLoop comments 0 num md with
  | error e => rfl
  | ok l => by_cases hs : strLower s = "score" <;> simp [hs, Except.map]

/-- Every dictionary in a list returned by `fetch_comments_data` comes
from `_process_comment` at depth 0 on some source item. -/
theorem fetch_mem (comments : List RawNode) (s : String) (num : Nat)
    (md : Option Int) (l : List CommentData)
    (h : fetch_comments_data comments s num md = .ok l) :
    ∀ cd ∈ l, ∃ n ∈ comments, process_comment n 0 md = .ok (some cd) := by
  intro cd hcd
  rw [fetch_comments_eq] at h
  cases ht : topLoop comments 0 num md with
  | error e => rw [ht] at h; exact Except.noConfusion h
  | ok l0 =>
      rw [ht] at h
      have hl := Except.ok.inj h
      simp only [] at hl
      by_cases hs : strLower s = "score"
      · rw [if_pos hs, actualPrawSort_score s hs,
          if_neg (by simp : ¬("top" ≠ "top"))] at hl
        subst hl
        exact topLoop_mem comments 0 num md l0 ht cd
          (List.mem_of_mem_take hcd)
      · rw [if_neg hs] at hl
        subst hl
        exact topLoop_mem comments 0 num md l0 ht cd hcd

/-- C6: in every tree the builder returns, a node records the depth it
was processed at and each child records its parent's depth plus one; a
node processed at depth `d ≥ max_depth` is returned with its depth and
an empty reply list; consequently with `max_depth = 0` every top-level
comment returned by `fetch_comments_data` has empty children, whatever
replies the source offers. -/
theorem depth_invariant_and_truncation :
    (∀ (n : RawNode) (d : Int) (md : Option Int) (cd : CommentData),
        process_comment n d md = .ok (some cd) →
        cd.depth = d ∧ depthOk cd = true ∧
          (∀ m, md = some m → d ≥ m → cd.replies = [])) ∧
    (∀ (comments : List RawNode) (s : String) (num : Nat)
        (l : List CommentData),
        fetch_comments_data comments s num (some 0) = .ok l →
        ∀ cd ∈ l, cd.replies = []) := by
  refine ⟨pc_depth, ?_⟩
  intro comments s num l h cd hcd
  obtain ⟨n, _, hp⟩ := fetch_mem comments s num (some 0) l h cd hcd
  exact (pc_depth n 0 (some 0) cd hp).2.2 0 rfl le_rfl

/-- C6 witness: a top-level comment with an available reply, processed
with `max_depth = 0`, is returned at depth 0, satisfies the depth
invariant, and carries no children. -/
theorem depth_invariant_and_truncation_witness :
    (mkData (plainFields "w" 3) 0 []).depth = 0 ∧
      depthOk (mkData (plainFields "w" 3) 0 []) = true ∧
      (mkData (plainFields "w" 3) 0 []).replies = [] :=
  have h := depth_invariant_and_truncation.1
    (plainComment "w" 3 [plainComment "r" 1 []]) 0 (some 0)
    (mkData (plainFields "w" 3) 0 []) rfl
  ⟨h.1, h.2.1, h.2.2 0 rfl le_rfl⟩

/-- The reply loop never truncates on a list free of raising nodes. -/
theorem process_replies_append_bad : ∀ (rs1 rs2 : List RawNode) (d : Int)
    (md : Option Int), (∀ n ∈ rs1, isBad n = false) →
    process_replies (rs1 ++ RawNode.bad :: rs2) d md =
      process_replies rs1 d md := by
  intro rs1
  induction rs1 with
  | nil =>
      intro rs2 d md _
      simp [process_replies, process_comment]
  | cons n rest ih =>
      intro rs2 d md h
      have hn := h n (List.mem_cons_self n rest)
      have hrest := fun x hx => h x (List.mem_cons_of_mem n hx)
      cases n with
      | bad => simp [isBad] at hn
      | more i => exact ih rs2 d md hrest
      | comment c rs =>
          simp only [List.cons_append, process_replies]
          cases hp : process_comment (RawNode.comment c rs) d md with
          | error e => rfl
          | ok r =>
              cases r with
              | none => exact ih rs2 d md hrest
              | some cd0 => exact congrArg (cd0 :: ·) (ih rs2 d md hrest)

/-- C8: an error raised while expanding one node's replies never fails
the node — processing a comment always returns — and the node keeps
exactly the children collected before the raising reply: a reply list
whose prefix is well-behaved and whose next entry raises produces the
same children as the prefix alone, the remainder never being visited. -/
theorem reply_failure_keeps_partial_children (rs1 rs2 : List RawNode)
    (d : Int) (md : Option Int)
    (h : rs1.all (fun n => !isBad n) = true) :
    (∀ (c : CommentFields) (rs : List RawNode),
        (process_comment (RawNode.comment c rs) d md).isOk = true) ∧
      process_replies (rs1 ++ RawNode.bad :: rs2) d md =
        process_replies rs1 d md := by
  refine ⟨fun c rs => process_comment_isOk c rs d md, ?_⟩
  refine process_replies_append_bad rs1 rs2 d md ?_
  intro n hn
  have := List.all_eq_true.mp h n hn
  simpa using this

/-- C8 witness: with a valid reply, then a raising entry, then another
valid reply, the parent keeps exactly the first child. -/
theorem reply_failure_keeps_partial_children_witness :
    (process_comment (RawNode.comment (plainFields "p" 0)
        [plainComment "r1" 1 [], RawNode.bad, plainComment "r2" 2 []])
      0 none).isOk = true ∧
      process_replies ([plainComment "r1" 1 []] ++
          RawNode.bad :: [plainComment "r2" 2 []]) 1 none =
        process_replies [plainComment "r1" 1 []] 1 none :=
  have h := reply_failure_keeps_partial_children
    [plainComment "r1" 1 []] [plainComment "r2" 2 []] 1 none rfl
  ⟨by
      have h0 := reply_failure_keeps_partial_children
        [] ([] : List RawNode) 0 none rfl
      exact h0.1 (plainFields "p" 0)
        [plainComment "r1" 1 [], RawNode.bad, plainComment "r2" 2 []],
    h.2⟩

/-- On a top-level sequence free of raising items, the loop collects
exactly the first `num - count` valid processed comments, in source
order: placeholders and skipped comments contribute nothing. -/
theorem topLoop_noBad : ∀ (comments : List RawNode) (count num : Nat)
    (md : Option Int), (∀ n ∈ comments, isBad n = false) →
    topLoop comments count num md =
      .ok ((comments.filterMap (topValid md)).take (num - count)) := by
  intro comments
  induction comments with
  | nil => intro count num md _; simp [topLoop]
  | cons n rest ih =>
      intro count num md h
      have hn := h n (List.mem_cons_self n rest)
      have hrest := fun x hx => h x (List.mem_cons_of_mem n hx)
      cases n with
      | bad => simp [isBad] at hn
      | more i =>
          simp only [topLoop]
          by_cases hc : count ≥ num
          · rw [if_pos hc]
            have : num - count = 0 := by omega
            rw [this]
            simp
          · rw [if_neg hc, ih count num md hrest]
            simp [List.filterMap_cons, topValid, process_comment]
      | comment c rs =>
          simp only [topLoop]
          by_cases hc : count ≥ num
          · rw [if_pos hc]
            have : num - count = 0 := by omega
            rw [this]
            simp
          · rw [if_neg hc]
            cases hp : process_comment (RawNode.comment c rs) 0 md with
            | error e =>
                have := process_comment_isOk c rs 0 md
                rw [hp] at this
                exact absurd this (by simp [Except.isOk, Except.toBool])
            | ok r =>
                cases r with
                | none =>
                    rw [ih count num md hrest]
                    simp [List.filterMap_cons, topValid, hp]
                | some cd =>
                    rw [ih (count + 1) num md hrest]
                    simp only [List.filterMap_cons, topValid, hp]
                    have hstep : num - count = (num - (count + 1)) + 1 := by
                      omega
                    rw [hstep, List.take_succ_cons]

/-- C7: nodes lacking an author or body and load-more placeholders are
skipped by `_process_comment` and count neither toward `num_comments`
nor toward a parent's reply list: on any source sequence whose items
process without raising, the builder returns the first `num` valid
processed comments, a skipped head contributes nothing to a reply list,
and the concrete source of five valid comments and one placeholder
queried with `num_comments = 2` yields exactly two nodes. -/
theorem skipped_nodes_do_not_count (comments : List RawNode) (num : Nat)
    (md : Option Int) (h : comments.all (fun n => !isBad n) = true) :
    topLoop comments 0 num md =
        .ok ((comments.filterMap (topValid md)).take num) ∧
      (∀ i, topValid md (RawNode.more i) = none) ∧
      (∀ (c : CommentFields) (rs : List RawNode),
        (!c.hasBody || c.author.isNone) = true →
        topValid md (RawNode.comment c rs) = none) ∧
      (∀ (i : String) (rest : List RawNode) (d : Int),
        process_replies (RawNode.more i :: rest) d md =
          process_replies rest d md) ∧
      (∀ (c : CommentFields) (rs rest : List RawNode) (d : Int),
        (!c.hasBody || c.author.isNone) = true →
        process_replies (RawNode.comment c rs :: rest) d md =
          process_replies rest d md) ∧
      (fetch_comments_data c7_input "best" 2 (some 1)).map List.length =
        .ok 2 := by
  refine ⟨?_, fun i => rfl, ?_, fun i rest d => rfl, ?_, rfl⟩
  · have := topLoop_noBad comments 0 num md
      (fun n hn => by simpa using List.all_eq_true.mp h n hn)
    simpa using this
  · intro c rs hcv
    simp [topValid, process_comment, hcv]
  · intro c rs rest d hcv
    simp [process_replies, process_comment, hcv]

/-- C7 witness: on the five-valid-plus-placeholder source with
`num_comments = 2`, the loop equation holds and the builder returns
exactly two nodes. -/
theorem skipped_nodes_do_not_count_witness :
    topLoop c7_input 0 2 (some 1) =
        .ok ((c7_input.filterMap (topValid (some 1))).take 2) ∧
      (fetch_comments_data c7_input "best" 2 (some 1)).map List.length =
        .ok 2 :=
  have h := skipped_nodes_do_not_count c7_input 2 (some 1) rfl
  ⟨h.1, h.2.2.2.2.2⟩

/-- Raw items reachable from a member of a forest are raw items
reachable from the forest. -/
theorem mem_rawNodesF_of_mem : ∀ (comments : List RawNode) (n : RawNode),
    n ∈ comments → ∀ x ∈ rawNodes n, x ∈ rawNodesF comments := by
  intro comments
  induction comments with
  | nil => intro n h; simp at h
  | cons m rest ih =>
      intro n h x hx
      have hsplit : rawNodesF (m :: rest) = rawNodes m ++ rawNodesF rest :=
        rfl
      rw [hsplit]
      rcases List.mem_cons.mp h with h1 | h2
      · subst h1; exact List.mem_append.mpr (Or.inl hx)
      · exact List.mem_append.mpr (Or.inr (ih n h2 x hx))

mutual

/-- Provenance of every node of a tree built by `_process_comment`: it
stems from a comment item (never a placeholder) reachable in the raw
tree that has a `body` attribute and a non-`None` author, and its `id`,
`body` and `author` entries are taken from that item. -/
theorem pc_prov : ∀ (n : RawNode) (d : Int) (md : Option Int)
    (cd : CommentData), process_comment n d md = .ok (some cd) →
    ∀ cd' ∈ cdNodes cd, ∃ c rs, RawNode.comment c rs ∈ rawNodes n ∧
      c.hasBody = true ∧ c.author.isSome = true ∧
      cd'.id = c.id ∧ cd'.body = c.body ∧ cd'.author = authorName c
  | .bad, d, md, cd => by intro h; simp [process_comment] at h
  | .more i, d, md, cd => by intro h; simp [process_comment] at h
  | .comment c rs, d, md, cd => by
      intro h cd' hcd'
      simp only [process_comment] at h
      by_cases hval : (!c.hasBody || c.author.isNone) = true
      · rw [if_pos hval] at h; simp at h
      · have hbody : c.hasBody = true := by
          by_cases hb : c.hasBody = true
          · exact hb
          · have hb' : c.hasBody = false := by
              cases hcb : c.hasBody
              · rfl
              · exact absurd hcb hb
            exact absurd (by simp [hb']) hval
        have hauth : c.author.isSome = true := by
          cases hca : c.author with
          | none => exact absurd (by simp [hca]) hval
          | some a => simp [hca]
        have hself : RawNode.comment c rs ∈ rawNodes (RawNode.comment c rs) := by
          show RawNode.comment c rs ∈ RawNode.comment c rs :: rawNodesF rs
          exact List.mem_cons_self _ _
        rw [if_neg hval] at h
        by_cases hdep : depthReached d md = true
        · rw [if_pos hdep] at h
          have hcd : mkData c d [] = cd := by simpa using h
          subst hcd
          have : cd' = mkData c d [] := by
            have hred : cdNodes (mkData c d []) = [mkData c d []] := rfl
            rw [hred] at hcd'
            simpa using hcd'
          subst this
          exact ⟨c, rs, hself, hbody, hauth, rfl, rfl, rfl⟩
        · rw [if_neg hdep] at h
          have hcd : mkData c d (process_replies rs (d + 1) md) = cd := by
            simpa using h
          subst hcd
          have hred : cdNodes (mkData c d (process_replies rs (d + 1) md)) =
              mkData c d (process_replies rs (d + 1) md) ::
                cdNodesF (process_replies rs (d + 1) md) := rfl
          rw [hred] at hcd'
          rcases List.mem_cons.mp hcd' with h1 | h2
          · subst h1
            exact ⟨c, rs, hself, hbody, hauth, rfl, rfl, rfl⟩
          · obtain ⟨c', rs', hmem, hrest⟩ := pr_prov rs (d + 1) md cd' h2
            refine ⟨c', rs', ?_, hrest⟩
            show RawNode.comment c' rs' ∈
              RawNode.comment c rs :: rawNodesF rs
            exact List.mem_cons_of_mem _ hmem

/-- Provenance for every node of every tree built by the reply loop. -/
theorem pr_prov : ∀ (ns : List RawNode) (d : Int) (md : Option Int),
    ∀ cd' ∈ cdNodesF (process_replies ns d md), ∃ c rs,
      RawNode.comment c rs ∈ rawNodesF ns ∧ c.hasBody = true ∧
      c.author.isSome = true ∧ cd'.id = c.id ∧ cd'.body = c.body ∧
      cd'.author = authorName c
  | [], d, md => by intro cd' h; simp [process_replies, cdNodesF] at h
  | n :: rest, d, md => by
      intro cd' hcd'
      have hsplit : rawNodesF (n :: rest) = rawNodes n ++ rawNodesF rest :=
        rfl
      simp only [process_replies] at hcd'
      cases hp : process_comment n d md with
      | error e =>
          rw [hp] at hcd'
          simp [cdNodesF] at hcd'
      | ok r =>
          rw [hp] at hcd'
          cases r with
          | none =>
              obtain ⟨c', rs', hmem, hrest⟩ := pr_prov rest d md cd' hcd'
              refine ⟨c', rs', ?_, hrest⟩
              rw [hsplit]
              exact List.mem_append.mpr (Or.inr hmem)
          | some cd0 =>
              have hred : cdNodesF (cd0 :: process_replies rest d md) =
                  cdNodes cd0 ++ cdNodesF (process_replies rest d md) := rfl
              rw [hred] at hcd'
              rcases List.mem_append.mp hcd' with h1 | h2
              · obtain ⟨c', rs', hmem, hrest⟩ := pc_prov n d md cd0 hp cd' h1
                refine ⟨c', rs', ?_, hrest⟩
                rw [hsplit]
                exact List.mem_append.mpr (Or.inl hmem)
              · obtain ⟨c', rs', hmem, hrest⟩ := pr_prov rest d md cd' h2
                refine ⟨c', rs', ?_, hrest⟩
                rw [hsplit]
                exact List.mem_append.mpr (Or.inr hmem)

end

/-- C9: every dictionary at any depth of a list returned by
`fetch_comments_data` stems from a raw comment item — never a load-more
placeholder — that has a `body` attribute and a non-`None` author, and
copies its `id`, `body` and author name. -/
theorem returned_nodes_all_valid (comments : List RawNode) (s : String)
    (num : Nat) (md : Option Int) (l : List CommentData)
    (h : fetch_comments_data comments s num md = .ok l) :
    ∀ cd ∈ l, ∀ cd' ∈ cdNodes cd, ∃ c rs,
      RawNode.comment c rs ∈ rawNodesF comments ∧ c.hasBody = true ∧
      c.author.isSome = true ∧ cd'.id = c.id ∧ cd'.body = c.body ∧
      cd'.author = authorName c := by
  intro cd hcd cd' hcd'
  obtain ⟨n, hn, hp⟩ := fetch_mem comments s num md l h cd hcd
  obtain ⟨c, rs, hmem, hrest⟩ := pc_prov n 0 md cd hp cd' hcd'
  exact ⟨c, rs, mem_rawNodesF_of_mem comments n hn _ hmem, hrest⟩

/-- C9 witness: the root of the single tree fetched from `c9_input`
stems from a valid raw comment of the input. -/
theorem returned_nodes_all_valid_witness :
    ∃ c rs, RawNode.comment c rs ∈ rawNodesF c9_input ∧
      c.hasBody = true ∧ c.author.isSome = true ∧
      (mkData (plainFields "t" 7) 0
        [mkData (plainFields "r" 3) 1 []]).id = c.id ∧
      (mkData (plainFields "t" 7) 0
        [mkData (plainFields "r" 3) 1 []]).body = c.body ∧
      (mkData (plainFields "t" 7) 0
        [mkData (plainFields "r" 3) 1 []]).author = authorName c :=
  returned_nodes_all_valid c9_input "best" 5 none
    [mkData (plainFields "t" 7) 0 [mkData (plainFields "r" 3) 1 []]] rfl
    (mkData (plainFields "t" 7) 0 [mkData (plainFields "r" 3) 1 []])
    (List.mem_singleton.mpr rfl)
    (mkData (plainFields "t" 7) 0 [mkData (plainFields "r" 3) 1 []])
    (List.mem_cons_self _ _)

/-! ## Media classifier: theorems -/

/-- C2 counterexample: on a post qualifying both for the `image_link`
rule and for the YouTube oEmbed rule, the classifier returns the pending
`image_link` followed by the embed — two items, not only the embed. -/
theorem embed_does_not_drop_image_link :
    extract_media_info bothSub =
        [.image_link "https://example.com/pic.jpg" (some 640) (some 480)
            (some "https://preview/p.jpg"),
         .youtube_video_embed (some "https://youtu.be/x") (some "<iframe>")
            (some "https://t.jpg") (some "T") (some "A")
            (some "YouTube")] ∧
      (extract_media_info bothSub).all isYoutubeItem = false :=
  ⟨rfl, rfl⟩

/-- C2 (amended): on every post whose metadata qualifies both for the
`image_link` rule and for the YouTube oEmbed rule, the classifier
returns exactly the pending `image_link` followed by the
`youtube_video_embed`: the embed ends classification but is appended
after the pending item rather than superseding it. -/
theorem embed_appended_after_image_link (s : Submission)
    (img : PreviewImage) (rest : List PreviewImage) (oe : Oembed)
    (hg : gallery_cond s = false)
    (hv : s.is_video = false)
    (hp : s.preview = some (img :: rest))
    (hd : (["i.redd.it", "i.imgur.com"].contains s.domain) = false)
    (hself : s.is_self = false)
    (hurl : s.url ≠ "")
    (hext : hasImageExt s.url = true)
    (hvd : s.domain ≠ "v.redd.it")
    (hsm : s.secure_media = some ⟨some oe⟩)
    (hot : oe.otype = some "video")
    (hpr : oe.provider_name = some "YouTube") :
    extract_media_info s =
      [.image_link s.url img.source.width img.source.height
          img.source.url,
       .youtube_video_embed oe.url oe.html oe.thumbnail_url oe.title
          oe.author_name oe.provider_name] := by
  unfold extract_media_info extract_core
  have hrv : reddit_video_cond s = false := by
    simp [reddit_video_cond, hv]
  have hpc : preview_cond s = true := by
    simp [preview_cond, hp]
  rw [hg, hrv, hpc]
  simp only [Bool.false_eq_true, if_false, if_true, hp, Option.getD_some]
  rw [hd]
  simp only [Bool.false_eq_true, if_false, hself, hurl, hv, hext, hvd]
  simp only [oembed_rule, hsm, hot, hpr]
  simp [hurl, hvd]

/-- C2 amended-claim witness: the concrete doubly-qualifying post
produces exactly the pending `image_link` followed by the embed. -/
theorem embed_appended_after_image_link_witness :
    extract_media_info bothSub =
      [MediaItem.image_link "https://example.com/pic.jpg" (some 640)
          (some 480) (some "https://preview/p.jpg"),
       MediaItem.youtube_video_embed (some "https://youtu.be/x")
          (some "<iframe>") (some "https://t.jpg") (some "T") (some "A")
          (some "YouTube")] :=
  embed_appended_after_image_link bothSub
    ⟨⟨some "https://preview/p.jpg", some 640, some 480⟩⟩ []
    ⟨some "video", some "YouTube", some "https://youtu.be/x",
      some "<iframe>", some "https://t.jpg", some "T", some "A"⟩
    rfl rfl rfl rfl rfl (by decide) rfl (by decide) rfl rfl rfl

/-- C5: the classifier is a total function — every internal error of the
Python body is caught, so a call never raises — but an error caught
after items were already accumulated yields the partial list, not the
empty list the code's own `except` comment promises: on the gallery
whose second metadata item raises, the call returns the one item
collected before the error. -/
theorem classifier_error_returns_partial_list :
    extract_media_info badGallerySub =
        [MediaItem.image_gallery_item "aaa" (some "https://i/full.jpg")
          (some 100) (some 60) (some "image/jpg")] ∧
      extract_media_info badGallerySub ≠ [] :=
  ⟨rfl, List.cons_ne_nil _ _⟩
